import Mathlib

/-!
Verification of the ZenReader document-ingestion and chapter-segmentation
engine, shallowly embedded from `src/utils/fileParser.ts` and the lazy
chapter materializer in `src/App.tsx`.

Strings from the JavaScript source are modelled as Lean `String`s, with
character-indexed operations (`substring`, `indexOf`, `split`, `trim`,
`includes`) carried out on the underlying `List Char`.
-/

namespace ZenReader

/-- The `Chapter` record of `src/types` as produced by `fileParser.ts`:
`content` is set on the structured (docx/epub) path, the two string
indices on the plain-text path. -/
structure Chapter where
  id : String
  title : String
  index : Nat
  content : Option String := none
  startStringIndex : Option Nat := none
  endStringIndex : Option Nat := none
deriving Repr, DecidableEq

/-- PASS-1 output of `parseTxtContentOptimized`: a detected heading with
the exact character index where the title line starts. -/
structure ChapterPoint where
  title : String
  startIndex : Nat
deriving Repr, DecidableEq

/-- A raw regex hit of the chapter-heading pattern: `captured` is the
capture group `match[1]` (title text plus up to 50 trailing chars) and
`startIndex` the computed index of the title within the text. -/
structure RawMatch where
  captured : String
  startIndex : Nat
deriving Repr, DecidableEq

/-- JavaScript whitespace stripped by `String.prototype.trim`. -/
def isJsWhitespace (c : Char) : Bool :=
  c = ' ' || c = '\t' || c = '\n' || c = '\r' ||
  c = '\x0b' || c = '\x0c' || c = Char.ofNat 0x00A0 || c = Char.ofNat 0xFEFF

/-- `trim`: drop whitespace from both ends of a character list. -/
def trimChars (l : List Char) : List Char :=
  ((l.dropWhile isJsWhitespace).reverse.dropWhile isJsWhitespace).reverse

/-- The character class `/[,，。？！“”!?"';]/` used to reject prose-like
titles (`Char.ofNat 39` is the ASCII apostrophe). -/
def invalidTitleChars : List Char :=
  [',', '，', '。', '？', '！', '“', '”', '!', '?', '"', Char.ofNat 39, ';']

/-- `invalidTitleChars.test(titleLine)`. -/
def hasInvalidTitleChar (titleLine : List Char) : Bool :=
  titleLine.any (fun c => invalidTitleChars.contains c)

/-- PASS 1 of `parseTxtContentOptimized`: each regex hit is trimmed and
kept as a `ChapterPoint` unless it hits the punctuation filter or its
trimmed length is 0 or exceeds 50. -/
def filterPoints : List RawMatch → List ChapterPoint
  | [] => []
  | m :: ms =>
    let titleLine := trimChars m.captured.toList
    if hasInvalidTitleChar titleLine then filterPoints ms
    else if 50 < titleLine.length || titleLine.length == 0 then filterPoints ms
    else { title := String.mk titleLine, startIndex := m.startIndex } :: filterPoints ms

/-- The single whole-text chapter returned when no headings are found. -/
def fullTextChapter (len : Nat) : Chapter :=
  { id := "chap-0", title := "全文", index := 0,
    startStringIndex := some 0, endStringIndex := some len }

/-- `nextPoint ? nextPoint.startIndex : text.length`: where the chapter
being built ends, given the points that follow it. -/
def nextEnd (len : Nat) : List ChapterPoint → Nat
  | [] => len
  | q :: _ => q.startIndex

/-- The main loop of PASS 2: chapter `i` runs from its own start index to
the next point's start index, or to the end of the text for the last one. -/
def buildMain (len : Nat) : Nat → List ChapterPoint → List Chapter
  | _, [] => []
  | counter, p :: rest =>
    { id := "chap-" ++ toString counter, title := p.title, index := counter,
      startStringIndex := some p.startIndex,
      endStringIndex := some (nextEnd len rest) }
    :: buildMain len (counter + 1) rest

/-- PASS 2 of `parseTxtContentOptimized`: the whole-text fallback when no
points exist, a synthetic `开始` prologue when the first point starts
after index 50, then one chapter per point. -/
def buildChapters (len : Nat) : List ChapterPoint → List Chapter
  | [] => [fullTextChapter len]
  | p :: rest =>
    if 50 < p.startIndex then
      { id := "chap-pre", title := "开始", index := 0,
        startStringIndex := some 0, endStringIndex := some p.startIndex }
      :: buildMain len 1 (p :: rest)
    else
      buildMain len 0 (p :: rest)

/-- Start offset of a built chapter (all built chapters carry one). -/
def startOff (c : Chapter) : Nat := c.startStringIndex.getD 0

/-- End offset of a built chapter (all built chapters carry one). -/
def endOff (c : Chapter) : Nat := c.endStringIndex.getD 0

/-- Adjacent chapters meet exactly: each end offset equals the next
start offset. -/
def contiguousB : List Chapter → Bool
  | a :: b :: rest => (endOff a == startOff b) && contiguousB (b :: rest)
  | _ => true

/-- Detector points come in strictly increasing text order. -/
def pointsSorted : List ChapterPoint → Bool
  | p :: q :: rest => (decide (p.startIndex < q.startIndex)) && pointsSorted (q :: rest)
  | _ => true

/-- `String.prototype.includes`: `sub` occurs contiguously in `hay`. -/
def jsIncludesL (hay sub : List Char) : Bool :=
  decide (sub <:+: hay)

/-- `rawContent.indexOf` of a newline, `none` standing for `-1`. -/
def idxOfNewline : List Char → Option Nat
  | [] => none
  | c :: cs => if c = '\n' then some 0 else (idxOfNewline cs).map (· + 1)

/-- `String.prototype.substring(a, b)`: clamp both arguments to the
string length and swap them when out of order. -/
def jsSubstringL (l : List Char) (a b : Nat) : List Char :=
  let a' := min a l.length
  let b' := min b l.length
  (l.take (max a' b')).drop (min a' b')

/-- `String.prototype.split` on a newline: one (possibly empty) segment
per newline-delimited line, empty segments preserved. -/
def splitLines : List Char → List (List Char)
  | [] => [[]]
  | c :: cs =>
    let r := splitLines cs
    if c = '\n' then [] :: r
    else (c :: r.headD []) :: r.tail

/-- `Array.prototype.join('')`: concatenate all segments in order. -/
def concatAll : List String → String
  | [] => ""
  | s :: rest => s ++ concatAll rest

/-- `split('\n').map(line => `<p>${line}</p>`).join('')` from
`activeChapterData` in `App.tsx`. -/
def renderParagraphs (raw : List Char) : String :=
  concatAll ((splitLines raw).map (fun line => "<p>" ++ String.mk line ++ "</p>"))

/-- The title-dedup step of `activeChapterData`: if the slice has a
newline and its trimmed first line and the trimmed chapter title contain
one another (either direction), drop the first line. -/
def dedupFirstLineL (title raw : List Char) : List Char :=
  match idxOfNewline raw with
  | none => raw
  | some n =>
    let firstLine := trimChars (raw.take n)
    if jsIncludesL firstLine (trimChars title) || jsIncludesL (trimChars title) firstLine
    then raw.drop (n + 1)
    else raw

/-- JavaScript truthiness of the optional `content` field: present and
not the empty string. -/
def contentTruthy : Option String → Bool
  | none => false
  | some c => !(c == "")

/-- The placeholder content returned while the full text is unavailable. -/
def loadingContent : String := "<p>正在加载内容...</p>"

/-- The `activeChapterData` materializer of `App.tsx`: a chapter with
truthy `content` is returned unchanged; otherwise, given the full text
and a start offset, the slice `[startStringIndex, endStringIndex)` is
taken (end defaulting to the text length), title-deduplicated, and
rendered into paragraphs; with no usable full text or no offset, a
loading placeholder is produced. -/
def materializeChapter (fullText : Option String) (chapter : Chapter) : Chapter :=
  if contentTruthy chapter.content then chapter
  else
    match fullText, chapter.startStringIndex with
    | some t, some s =>
      if t == "" then { chapter with content := some loadingContent }
      else
        let e := chapter.endStringIndex.getD t.toList.length
        let rawContent := jsSubstringL t.toList s e
        let deduped := dedupFirstLineL chapter.title.toList rawContent
        { chapter with content := some (renderParagraphs deduped) }
    | _, _ => { chapter with content := some loadingContent }

/-- One converter block of the epub path: either the loaded content of a
spine item together with its optional table-of-contents title, or a
load failure. -/
inductive BlockResult where
  | ok (content : String) (tocTitle : Option String)
  | failed
deriving Repr, DecidableEq

/-- A block that failed to load. -/
def BlockResult.isFailed : BlockResult → Bool
  | .failed => true
  | .ok _ _ => false

/-- The epub ingestion loop of `parseFile`: successful blocks become
`content` chapters (title from the table of contents when found, else a
generic numbered one); failed blocks are skipped and do not advance the
chapter index. -/
def epubChapters : List BlockResult → Nat → List Chapter
  | [], _ => []
  | BlockResult.ok content tocTitle :: rest, index =>
    { id := "chap-" ++ toString index,
      title := tocTitle.getD ("第 " ++ toString (index + 1) ++ " 章"),
      index := index, content := some content } :: epubChapters rest (index + 1)
  | BlockResult.failed :: rest, index => epubChapters rest index

/-- The docx branch of `parseFile`: the converted html becomes a single
chapter named after the file. -/
def docxChapters (fileName html : String) : List Chapter :=
  [{ id := "chap-0", title := fileName, content := some html, index := 0 }]

/-- Outcome of the byte-prefix classification in `detectEncoding`: the
read errored, the classifier (or the read result) was unavailable, or
the classifier ran and reported an optional encoding label. -/
inductive SniffInput where
  | readError
  | noClassifier
  | detected (encoding : Option String)
deriving Repr, DecidableEq

/-- `detectEncoding` of `fileParser.ts`: the classifier label when it is
present and non-empty, `utf-8` in every other case. -/
def detectEncoding : SniffInput → String
  | .readError => "utf-8"
  | .noClassifier => "utf-8"
  | .detected none => "utf-8"
  | .detected (some e) => if e == "" then "utf-8" else e

/-! ### Helper lemmas about the chapter builder -/

theorem buildMain_contiguous (len : Nat) :
    ∀ (counter : Nat) (ps : List ChapterPoint),
      contiguousB (buildMain len counter ps) = true := by
  intro counter ps
  induction ps generalizing counter with
  | nil => rfl
  | cons p rest ih =>
    cases rest with
    | nil => rfl
    | cons q rest' =>
      simp only [buildMain, contiguousB, endOff, startOff, nextEnd, Option.getD_some,
        beq_self_eq_true, Bool.true_and]
      exact ih (counter + 1)

theorem buildMain_last_end (len : Nat) :
    ∀ (counter : Nat) (p : ChapterPoint) (ps : List ChapterPoint),
      ((buildMain len counter (p :: ps)).getLast?).map endOff = some len := by
  intro counter p ps
  induction ps generalizing counter p with
  | nil => simp [buildMain, endOff, nextEnd]
  | cons q rest ih =>
    have hrw : buildMain len counter (p :: q :: rest) =
        { id := "chap-" ++ toString counter, title := p.title, index := counter,
          startStringIndex := some p.startIndex,
          endStringIndex := some q.startIndex }
        :: buildMain len (counter + 1) (q :: rest) := rfl
    rw [hrw]
    have hcons : buildMain len (counter + 1) (q :: rest) =
        { id := "chap-" ++ toString (counter + 1), title := q.title, index := counter + 1,
          startStringIndex := some q.startIndex,
          endStringIndex := some (nextEnd len rest) }
        :: buildMain len (counter + 2) rest := rfl
    rw [hcons, List.getLast?_cons_cons, ← hcons]
    exact ih (counter + 1) q

theorem pointsSorted_tail {p : ChapterPoint} {ps : List ChapterPoint}
    (h : pointsSorted (p :: ps) = true) : pointsSorted ps = true := by
  cases ps with
  | nil => rfl
  | cons q rest =>
    simp only [pointsSorted, Bool.and_eq_true] at h
    exact h.2

theorem buildMain_bounds (len : Nat) :
    ∀ (counter : Nat) (ps : List ChapterPoint),
      pointsSorted ps = true → (∀ p ∈ ps, p.startIndex < len) →
      ∀ c ∈ buildMain len counter ps, startOff c < endOff c ∧ endOff c ≤ len := by
  intro counter ps
  induction ps generalizing counter with
  | nil => intro _ _ c hc; simp [buildMain] at hc
  | cons p rest ih =>
    intro hs hb c hc
    simp only [buildMain, List.mem_cons] at hc
    rcases hc with hc | hc
    · subst hc
      cases rest with
      | nil =>
        refine ⟨?_, ?_⟩ <;> simp only [startOff, endOff, Option.getD_some]
        · exact hb p (List.mem_cons_self p [])
        · exact le_refl len
      | cons q rest' =>
        refine ⟨?_, ?_⟩ <;> simp only [startOff, endOff, Option.getD_some]
        · simp only [pointsSorted, Bool.and_eq_true, decide_eq_true_eq] at hs
          exact hs.1
        · exact le_of_lt (hb q (List.mem_cons_of_mem p (List.mem_cons_self q rest')))
    · exact ih (counter + 1) (pointsSorted_tail hs)
        (fun x hx => hb x (List.mem_cons_of_mem p hx)) c hc

theorem buildMain_content (len : Nat) :
    ∀ (counter : Nat) (ps : List ChapterPoint), ∀ c ∈ buildMain len counter ps,
      c.content = none ∧ (∃ a, c.startStringIndex = some a) ∧
      (∃ b, c.endStringIndex = some b) := by
  intro counter ps
  induction ps generalizing counter with
  | nil => intro c hc; simp [buildMain] at hc
  | cons p rest ih =>
    intro c hc
    simp only [buildMain, List.mem_cons] at hc
    rcases hc with hc | hc
    · subst hc
      exact ⟨rfl, ⟨p.startIndex, rfl⟩, ⟨_, rfl⟩⟩
    · exact ih (counter + 1) c hc

/-! ### C1: coverage invariant of the chapter builder -/

/-- C1 counterexample: a single boundary candidate at offset 2 (at most
50 characters in, as produced for a heading on the second line of the
text) yields a chapter sequence whose first chapter starts at offset 2,
not 0 — the prefix `[0, 2)` is covered by no chapter, refuting the
claimed exact coverage. -/
theorem c1_coverage_counterexample :
    buildChapters 10 [{ title := "第一章 开端", startIndex := 2 }] =
      [{ id := "chap-0", title := "第一章 开端", index := 0,
         startStringIndex := some 2, endStringIndex := some 10 }]
    ∧ ((buildChapters 10 [{ title := "第一章 开端", startIndex := 2 }]).head?).map startOff
        ≠ some 0 := by
  constructor
  · rfl
  · decide

/-- C1 (amended): for sorted in-range candidates the built chapters are
contiguous, every chapter satisfies `start ≤ end ≤ len` (strictly
`start < end` on nonempty text), and the last chapter ends at the text
length; but the first chapter starts at offset 0 only when there are no
candidates or the first candidate starts at 0 or beyond offset 50 —
when the first candidate starts in `(0, 50]`, the initial segment of
the text before it is not covered by any chapter. -/
theorem c1_coverage_amended (len : Nat) (points : List ChapterPoint)
    (hs : pointsSorted points = true)
    (hb : ∀ p ∈ points, p.startIndex < len) :
    contiguousB (buildChapters len points) = true
    ∧ (∀ c ∈ buildChapters len points,
        startOff c ≤ endOff c ∧ endOff c ≤ len ∧ (0 < len → startOff c < endOff c))
    ∧ ((buildChapters len points).getLast?).map endOff = some len
    ∧ ((buildChapters len points).head?).map startOff =
        some (match points with
              | [] => 0
              | p :: _ => if 50 < p.startIndex then 0 else p.startIndex) := by
  cases points with
  | nil =>
    refine ⟨rfl, ?_, rfl, rfl⟩
    intro c hc
    simp only [buildChapters, List.mem_singleton] at hc
    subst hc
    exact ⟨Nat.zero_le len, le_refl len, fun h => h⟩
  | cons p rest =>
    by_cases hp : 50 < p.startIndex
    · have hrw : buildChapters len (p :: rest) =
          { id := "chap-pre", title := "开始", index := 0,
            startStringIndex := some 0, endStringIndex := some p.startIndex }
          :: buildMain len 1 (p :: rest) := by
        simp [buildChapters, hp]
      have hcons : buildMain len 1 (p :: rest) =
          { id := "chap-" ++ toString 1, title := p.title, index := 1,
            startStringIndex := some p.startIndex,
            endStringIndex := some (nextEnd len rest) }
          :: buildMain len 2 rest := rfl
      refine ⟨?_, ?_, ?_, ?_⟩
      · rw [hrw, hcons]
        simp only [contiguousB, endOff, startOff, Option.getD_some, beq_self_eq_true,
          Bool.true_and]
        rw [← hcons]
        exact buildMain_contiguous len 1 (p :: rest)
      · intro c hc
        rw [hrw] at hc
        simp only [List.mem_cons] at hc
        rcases hc with hc | hc
        · subst hc
          simp only [startOff, endOff, Option.getD_some]
          exact ⟨Nat.zero_le _, le_of_lt (hb p (List.mem_cons_self p rest)),
            fun _ => Nat.lt_of_lt_of_le (by omega) (le_refl _)⟩
        · have h := buildMain_bounds len 1 (p :: rest) hs hb c hc
          exact ⟨le_of_lt h.1, h.2, fun _ => h.1⟩
      · rw [hrw, hcons, List.getLast?_cons_cons, ← hcons]
        exact buildMain_last_end len 1 p rest
      · rw [hrw]
        simp [startOff, hp]
    · have hrw : buildChapters len (p :: rest) = buildMain len 0 (p :: rest) := by
        simp [buildChapters, hp]
      refine ⟨?_, ?_, ?_, ?_⟩
      · rw [hrw]; exact buildMain_contiguous len 0 (p :: rest)
      · intro c hc
        rw [hrw] at hc
        have h := buildMain_bounds len 0 (p :: rest) hs hb c hc
        exact ⟨le_of_lt h.1, h.2, fun _ => h.1⟩
      · rw [hrw]; exact buildMain_last_end len 0 p rest
      · rw [hrw]
        simp [buildMain, startOff, hp]

/-- Witness for C1 (amended) at two sorted in-range candidates. -/
theorem c1_coverage_amended_witness :
    contiguousB (buildChapters 100 [⟨"a", 60⟩, ⟨"b", 80⟩]) = true
    ∧ (∀ c ∈ buildChapters 100 [⟨"a", 60⟩, ⟨"b", 80⟩],
        startOff c ≤ endOff c ∧ endOff c ≤ 100 ∧ (0 < 100 → startOff c < endOff c))
    ∧ ((buildChapters 100 [⟨"a", 60⟩, ⟨"b", 80⟩]).getLast?).map endOff = some 100
    ∧ ((buildChapters 100 [⟨"a", 60⟩, ⟨"b", 80⟩]).head?).map startOff =
        some (match [(⟨"a", 60⟩ : ChapterPoint), ⟨"b", 80⟩] with
              | [] => 0
              | p :: _ => if 50 < p.startIndex then 0 else p.startIndex) :=
  c1_coverage_amended 100 [⟨"a", 60⟩, ⟨"b", 80⟩] (by decide) (by decide)

theorem buildMain_length (len : Nat) :
    ∀ (counter : Nat) (ps : List ChapterPoint),
      (buildMain len counter ps).length = ps.length := by
  intro counter ps
  induction ps generalizing counter with
  | nil => rfl
  | cons p rest ih => simp [buildMain, ih (counter + 1)]

/-! ### C2: leading-chapter synthesis threshold -/

/-- C2 counterexample: a first candidate at offset 7 (at or below the
threshold 50) produces no synthetic leading chapter, but the first real
chapter starts at offset 7, not at offset 0 as the claim states. -/
theorem c2_leading_counterexample :
    buildChapters 20 [{ title := "Chapter 1", startIndex := 7 }] =
      [{ id := "chap-0", title := "Chapter 1", index := 0,
         startStringIndex := some 7, endStringIndex := some 20 }]
    ∧ ((buildChapters 20 [{ title := "Chapter 1", startIndex := 7 }]).head?).map startOff
        ≠ some 0 := by
  constructor
  · rfl
  · decide

/-- C2 (amended): when the first candidate starts strictly after offset
50 the builder emits the synthetic `开始` chapter covering
`[0, first_candidate_offset)`; when it starts at or below 50 (the
threshold is strict: exactly 50 gets no prologue) no chapter is added
beyond the one per candidate, and the first real chapter starts at the
first candidate's own offset — which is offset 0 only when the
candidate itself starts at 0. -/
theorem c2_leading_amended (len : Nat) (p : ChapterPoint) (rest : List ChapterPoint) :
    (50 < p.startIndex →
      (buildChapters len (p :: rest)).head? =
        some { id := "chap-pre", title := "开始", index := 0,
               startStringIndex := some 0, endStringIndex := some p.startIndex })
    ∧ (p.startIndex ≤ 50 →
      buildChapters len (p :: rest) = buildMain len 0 (p :: rest)
      ∧ (buildChapters len (p :: rest)).length = (p :: rest).length
      ∧ (buildChapters len (p :: rest)).head? =
          some { id := "chap-0", title := p.title, index := 0,
                 startStringIndex := some p.startIndex,
                 endStringIndex := some (nextEnd len rest) }) := by
  constructor
  · intro hp
    simp [buildChapters, hp]
  · intro hp
    have hn : ¬ 50 < p.startIndex := by omega
    have hrw : buildChapters len (p :: rest) = buildMain len 0 (p :: rest) := by
      simp [buildChapters, hn]
    refine ⟨hrw, ?_, ?_⟩
    · rw [hrw, buildMain_length]
    · rw [hrw]
      rfl

/-- Witness for C2 (amended): both threshold sides at offsets 51 and 50. -/
theorem c2_leading_amended_witness :
    (buildChapters 100 [(⟨"t", 51⟩ : ChapterPoint)]).head? =
      some { id := "chap-pre", title := "开始", index := 0,
             startStringIndex := some 0, endStringIndex := some 51 }
    ∧ (buildChapters 100 [(⟨"u", 50⟩ : ChapterPoint)]).head? =
      some { id := "chap-0", title := "u", index := 0,
             startStringIndex := some 50, endStringIndex := some 100 } :=
  ⟨(c2_leading_amended 100 ⟨"t", 51⟩ []).1 (by decide),
   ((c2_leading_amended 100 ⟨"u", 50⟩ []).2 (by decide)).2.2⟩

/-! ### C3: single-chapter fallback -/

/-- C3: whenever boundary detection yields zero candidates, the builder
returns exactly one chapter, titled `全文` (the generic whole-text
label), spanning `[0, len)`. -/
theorem c3_single_fallback (len : Nat) (ms : List RawMatch)
    (h : filterPoints ms = []) :
    buildChapters len (filterPoints ms) =
      [{ id := "chap-0", title := "全文", index := 0,
         startStringIndex := some 0, endStringIndex := some len }] := by
  rw [h]
  rfl

/-- Witness for C3 at a raw match whose title trims to nothing. -/
theorem c3_single_fallback_witness :
    buildChapters 7 (filterPoints [{ captured := "   ", startIndex := 0 }]) =
      [{ id := "chap-0", title := "全文", index := 0,
         startStringIndex := some 0, endStringIndex := some 7 }] :=
  c3_single_fallback 7 [{ captured := "   ", startIndex := 0 }] (by decide)

/-! ### C5: epub ingestion, partial failure, no empty-result fallback -/

/-- C5 counterexample: when every converter block fails, the epub
ingestion loop returns the empty chapter sequence — no fallback chapter
is synthesized, refuting the claim that ingestion never returns an
empty chapter sequence. -/
theorem c5_epub_counterexample :
    epubChapters [BlockResult.failed, BlockResult.failed] 0 = ([] : List Chapter) := rfl

/-- C5 (amended): a failed block is skipped and ingestion continues with
the remaining blocks, and a successful block yields a chapter with its
content (titled from the table of contents when available, else a
generic numbered title); but when no block succeeds the resulting
chapter sequence is empty — the code synthesizes no fallback chapter. -/
theorem c5_epub_amended :
    (∀ (rest : List BlockResult) (i : Nat),
        epubChapters (BlockResult.failed :: rest) i = epubChapters rest i)
    ∧ (∀ (blocks : List BlockResult) (i : Nat),
        blocks.all BlockResult.isFailed = true → epubChapters blocks i = [])
    ∧ (∀ (content : String) (tocTitle : Option String) (rest : List BlockResult) (i : Nat),
        (epubChapters (BlockResult.ok content tocTitle :: rest) i).head? =
          some { id := "chap-" ++ toString i,
                 title := tocTitle.getD ("第 " ++ toString (i + 1) ++ " 章"),
                 index := i, content := some content }) := by
  refine ⟨fun rest i => rfl, ?_, fun content tocTitle rest i => rfl⟩
  intro blocks
  induction blocks with
  | nil => intro i _; rfl
  | cons b rest ih =>
    intro i h
    simp only [List.all_cons, Bool.and_eq_true] at h
    cases b with
    | ok c t => simp [BlockResult.isFailed] at h
    | failed => exact ih i h.2

/-- Witness for C5 (amended) on an all-failing block list. -/
theorem c5_epub_amended_witness :
    epubChapters [BlockResult.failed, BlockResult.failed, BlockResult.failed] 2 = [] :=
  c5_epub_amended.2.1 [BlockResult.failed, BlockResult.failed, BlockResult.failed] 2 (by decide)

/-! ### C7: mutually exclusive materialization strategies -/

theorem epubChapters_shape :
    ∀ (blocks : List BlockResult) (i : Nat), ∀ c ∈ epubChapters blocks i,
      (∃ s, c.content = some s) ∧ c.startStringIndex = none ∧ c.endStringIndex = none := by
  intro blocks
  induction blocks with
  | nil => intro i c hc; simp [epubChapters] at hc
  | cons b rest ih =>
    intro i c hc
    cases b with
    | ok content tocTitle =>
      simp only [epubChapters, List.mem_cons] at hc
      rcases hc with hc | hc
      · subst hc; exact ⟨⟨content, rfl⟩, rfl, rfl⟩
      · exact ih (i + 1) c hc
    | failed => exact ih i c hc

/-- C7: every chapter produced by ingestion uses exactly one
materialization strategy — the plain-text builder always sets both
offsets and never `content`, while the epub and docx paths always set
`content` and never an offset. -/
theorem c7_mutual_exclusivity :
    (∀ (len : Nat) (ps : List ChapterPoint), ∀ c ∈ buildChapters len ps,
        c.content = none ∧ (∃ a, c.startStringIndex = some a) ∧
        (∃ b, c.endStringIndex = some b))
    ∧ (∀ (blocks : List BlockResult) (i : Nat), ∀ c ∈ epubChapters blocks i,
        (∃ s, c.content = some s) ∧ c.startStringIndex = none ∧ c.endStringIndex = none)
    ∧ (∀ (name html : String), ∀ c ∈ docxChapters name html,
        (∃ s, c.content = some s) ∧ c.startStringIndex = none ∧ c.endStringIndex = none) := by
  refine ⟨?_, epubChapters_shape, ?_⟩
  · intro len ps c hc
    cases ps with
    | nil =>
      simp only [buildChapters, List.mem_singleton] at hc
      subst hc
      exact ⟨rfl, ⟨0, rfl⟩, ⟨len, rfl⟩⟩
    | cons p rest =>
      by_cases hp : 50 < p.startIndex
      · simp only [buildChapters, if_pos hp, List.mem_cons] at hc
        rcases hc with hc | hc
        · subst hc; exact ⟨rfl, ⟨0, rfl⟩, ⟨p.startIndex, rfl⟩⟩
        · exact buildMain_content len 1 (p :: rest) c hc
      · simp only [buildChapters, if_neg hp] at hc
        exact buildMain_content len 0 (p :: rest) c hc
  · intro name html c hc
    simp only [docxChapters, List.mem_singleton] at hc
    subst hc
    exact ⟨⟨html, rfl⟩, rfl, rfl⟩

/-- Witness for C7 on the fallback chapter and a one-block epub. -/
theorem c7_mutual_exclusivity_witness :
    ((fullTextChapter 4).content = none
      ∧ (∃ a, (fullTextChapter 4).startStringIndex = some a)
      ∧ (∃ b, (fullTextChapter 4).endStringIndex = some b))
    ∧ ((∃ s, ({ id := "chap-0", title := "T", index := 0, content := some "hi" } : Chapter).content = some s)
      ∧ ({ id := "chap-0", title := "T", index := 0, content := some "hi" } : Chapter).startStringIndex = none
      ∧ ({ id := "chap-0", title := "T", index := 0, content := some "hi" } : Chapter).endStringIndex = none) :=
  ⟨c7_mutual_exclusivity.1 4 [] (fullTextChapter 4) (by decide),
   c7_mutual_exclusivity.2.1 [BlockResult.ok "hi" (some "T")] 0
     ({ id := "chap-0", title := "T", index := 0, content := some "hi" } : Chapter) (by decide)⟩

/-! ### C9: encoding sniffing never fails -/

/-- C9: encoding detection always returns a non-empty encoding label; a
read error, an unavailable classifier, and a classifier verdict with a
missing or empty label all fall back to `utf-8`, while a confident
classifier label is passed through. -/
theorem c9_encoding_default :
    (∀ i, detectEncoding i ≠ "")
    ∧ detectEncoding SniffInput.readError = "utf-8"
    ∧ detectEncoding SniffInput.noClassifier = "utf-8"
    ∧ detectEncoding (SniffInput.detected none) = "utf-8"
    ∧ detectEncoding (SniffInput.detected (some "")) = "utf-8"
    ∧ detectEncoding (SniffInput.detected (some "GB2312")) = "GB2312" := by
  refine ⟨?_, rfl, rfl, rfl, rfl, rfl⟩
  intro i
  cases i with
  | readError => decide
  | noClassifier => decide
  | detected e =>
    cases e with
    | none => decide
    | some s =>
      simp only [detectEncoding]
      split
      · decide
      · rename_i h
        simpa using h

/-! ### Helper lemmas about the lazy materializer -/

theorem idxOfNewline_append (fl rest : List Char) (h : '\n' ∉ fl) :
    idxOfNewline (fl ++ '\n' :: rest) = some fl.length := by
  induction fl with
  | nil => simp [idxOfNewline]
  | cons c cs ih =>
    have hc : ¬ c = '\n' := fun hcc => h (hcc ▸ List.mem_cons_self c cs)
    have ih' := ih (fun hm => h (List.mem_cons_of_mem c hm))
    simp [idxOfNewline, hc, ih']

theorem dedupFirstLineL_strip (title fl rest : List Char) (hnl : '\n' ∉ fl)
    (hcond : (jsIncludesL (trimChars fl) (trimChars title)
              || jsIncludesL (trimChars title) (trimChars fl)) = true) :
    dedupFirstLineL title (fl ++ '\n' :: rest) = rest := by
  unfold dedupFirstLineL
  rw [idxOfNewline_append fl rest hnl]
  simp only [List.take_left, hcond, if_true]
  have hassoc : fl ++ '\n' :: rest = (fl ++ ['\n']) ++ rest := by simp
  rw [hassoc]
  exact List.drop_left' (by simp)

theorem materializeChapter_lazy (ch : Chapter) (t : String) (s e : Nat)
    (h1 : contentTruthy ch.content = false)
    (h2 : ch.startStringIndex = some s)
    (h3 : ch.endStringIndex = some e)
    (ht : t ≠ "") :
    materializeChapter (some t) ch =
      { ch with content := some (renderParagraphs
          (dedupFirstLineL ch.title.toList (jsSubstringL t.toList s e))) } := by
  have ht' : (t == "") = false := beq_eq_false_iff_ne.mpr ht
  simp only [materializeChapter, h1, Bool.false_eq_true, if_false, h2, h3, ht',
    Option.getD_some]

theorem splitLines_ne_nil (l : List Char) : splitLines l ≠ [] := by
  induction l with
  | nil => simp [splitLines]
  | cons c cs _ =>
    simp only [splitLines]
    split <;> simp

theorem splitLines_length : ∀ raw : List Char,
    (splitLines raw).length = raw.count '\n' + 1 := by
  intro raw
  induction raw with
  | nil => rfl
  | cons c cs ih =>
    by_cases hc : c = '\n'
    · subst hc
      simp only [splitLines, if_pos rfl, List.length_cons, ih, List.count_cons,
        beq_self_eq_true, if_true]
    · cases hr : splitLines cs with
      | nil => exact absurd hr (splitLines_ne_nil cs)
      | cons x xs =>
        simp only [splitLines, if_neg hc, hr, List.headD_cons, List.tail_cons,
          List.length_cons]
        have h2 := ih
        rw [hr] at h2
        simp only [List.length_cons] at h2
        have h3 : (c :: cs).count '\n' = cs.count '\n' := by
          simp [List.count_cons, hc]
        rw [h3]
        omega

theorem renderParagraphs_ne_empty (raw : List Char) : renderParagraphs raw ≠ "" := by
  unfold renderParagraphs
  cases hr : splitLines raw with
  | nil => exact absurd hr (splitLines_ne_nil raw)
  | cons x xs =>
    simp only [List.map_cons, concatAll]
    intro h
    have h2 : (("<p>" ++ String.mk x ++ "</p>") ++
        concatAll (xs.map (fun line => "<p>" ++ String.mk line ++ "</p>"))).length =
        ("" : String).length := by rw [h]
    rw [String.length_append, String.length_append, String.length_append] at h2
    have h3 : ("<p>" : String).length = 3 := rfl
    have h4 : ("</p>" : String).length = 4 := rfl
    have h5 : ("" : String).length = 0 := rfl
    omega

theorem contentTruthy_of_ne {x : String} (hx : x ≠ "") :
    contentTruthy (some x) = true := by
  simp only [contentTruthy, beq_eq_false_iff_ne.mpr hx, Bool.not_false]

theorem materializeChapter_of_truthy (ft : Option String) (c : Chapter)
    (h : contentTruthy c.content = true) : materializeChapter ft c = c := by
  simp [materializeChapter, h]

theorem materializeChapter_idem (ft : Option String) (c : Chapter) :
    materializeChapter ft (materializeChapter ft c) = materializeChapter ft c := by
  by_cases h : contentTruthy c.content = true
  · have hfix := materializeChapter_of_truthy ft c h
    rw [hfix]
    exact hfix
  · have h' : contentTruthy c.content = false := by
      revert h; cases contentTruthy c.content <;> simp
    have hres : contentTruthy (materializeChapter ft c).content = true := by
      simp only [materializeChapter, h', Bool.false_eq_true, if_false]
      cases ft with
      | none =>
        cases c.startStringIndex <;> exact contentTruthy_of_ne (by decide)
      | some t =>
        cases hss : c.startStringIndex with
        | none => exact contentTruthy_of_ne (by decide)
        | some s =>
          dsimp only
          by_cases hts : (t == "") = true
          · rw [if_pos hts]
            exact contentTruthy_of_ne (by decide)
          · rw [if_neg hts]
            exact contentTruthy_of_ne (renderParagraphs_ne_empty _)
    exact materializeChapter_of_truthy ft _ hres

/-! ### C6: title de-duplication strips exactly one line; purity -/

/-- C6: when the slice of the full text starts with a newline-terminated
first line whose trimmed form and the trimmed chapter title contain one
another (either direction), materialization drops exactly that first
line — the remainder is rendered untouched — and the materializer is a
pure function: re-materializing its own output returns it unchanged. -/
theorem c6_dedup_strips_one_line (ch : Chapter) (t : String) (s e : Nat)
    (fl rest : List Char)
    (h1 : contentTruthy ch.content = false)
    (h2 : ch.startStringIndex = some s)
    (h3 : ch.endStringIndex = some e)
    (ht : t ≠ "")
    (hslice : jsSubstringL t.toList s e = fl ++ '\n' :: rest)
    (hnl : '\n' ∉ fl)
    (hcond : (jsIncludesL (trimChars fl) (trimChars ch.title.toList)
              || jsIncludesL (trimChars ch.title.toList) (trimChars fl)) = true) :
    (materializeChapter (some t) ch).content = some (renderParagraphs rest)
    ∧ (∀ (ft : Option String) (c : Chapter),
        materializeChapter ft (materializeChapter ft c) = materializeChapter ft c) := by
  refine ⟨?_, materializeChapter_idem⟩
  rw [materializeChapter_lazy ch t s e h1 h2 h3 ht, hslice,
    dedupFirstLineL_strip ch.title.toList fl rest hnl hcond]

/-- Witness for C6: a chapter whose slice repeats the title line. -/
theorem c6_dedup_strips_one_line_witness :
    (materializeChapter (some "第一章\n正文内容")
        { id := "chap-0", title := "第一章", index := 0,
          startStringIndex := some 0, endStringIndex := some 8 }).content =
      some "<p>正文内容</p>"
    ∧ materializeChapter (some "第一章\n正文内容")
        (materializeChapter (some "第一章\n正文内容")
          { id := "chap-0", title := "第一章", index := 0,
            startStringIndex := some 0, endStringIndex := some 8 }) =
      materializeChapter (some "第一章\n正文内容")
        { id := "chap-0", title := "第一章", index := 0,
          startStringIndex := some 0, endStringIndex := some 8 } := by
  have h := c6_dedup_strips_one_line
    { id := "chap-0", title := "第一章", index := 0,
      startStringIndex := some 0, endStringIndex := some 8 }
    "第一章\n正文内容" 0 8 "第一章".toList "正文内容".toList
    (by decide) rfl rfl (by decide) (by decide) (by decide) (by decide)
  exact ⟨h.1.trans (by decide),
    h.2 (some "第一章\n正文内容")
      { id := "chap-0", title := "第一章", index := 0,
        startStringIndex := some 0, endStringIndex := some 8 }⟩

/-! ### C8: one paragraph unit per newline-delimited line -/

/-- C8: a lazily materialized chapter renders, after the optional title
de-duplication, one `<p>` paragraph unit per newline-delimited line of
the remaining text, and the number of paragraph units (the number of
segments of the newline split) equals the number of newlines plus one,
so empty lines are preserved as empty paragraph units. -/
theorem c8_paragraph_units (ch : Chapter) (t : String) (s e : Nat)
    (h1 : contentTruthy ch.content = false)
    (h2 : ch.startStringIndex = some s)
    (h3 : ch.endStringIndex = some e)
    (ht : t ≠ "") :
    (materializeChapter (some t) ch).content =
      some (concatAll
        ((splitLines (dedupFirstLineL ch.title.toList (jsSubstringL t.toList s e))).map
          (fun line => "<p>" ++ String.mk line ++ "</p>")))
    ∧ (∀ raw : List Char, (splitLines raw).length = raw.count '\n' + 1) := by
  refine ⟨?_, splitLines_length⟩
  rw [materializeChapter_lazy ch t s e h1 h2 h3 ht]
  rfl

/-- Witness for C8 on a chapter containing an empty line. -/
theorem c8_paragraph_units_witness :
    (materializeChapter (some "a\n\nb")
        { id := "chap-0", title := "x", index := 0,
          startStringIndex := some 0, endStringIndex := some 4 }).content =
      some "<p>a</p><p></p><p>b</p>"
    ∧ (splitLines ['a', '\n', '\n', 'b']).length = ['a', '\n', '\n', 'b'].count '\n' + 1 := by
  have h := c8_paragraph_units
    { id := "chap-0", title := "x", index := 0,
      startStringIndex := some 0, endStringIndex := some 4 }
    "a\n\nb" 0 4 (by decide) rfl rfl (by decide)
  exact ⟨h.1.trans (by decide), h.2 ['a', '\n', '\n', 'b']⟩

/-! ### C10: an all-whitespace first line is always de-duplicated -/

/-- C10: when the slice of a lazily materialized chapter starts with a
newline-terminated first line that trims to the empty string, the
de-duplication step always drops that line, whatever the chapter's
title, because the empty string is a substring of every trimmed title. -/
theorem c10_blank_first_line_dropped (ch : Chapter) (t : String) (s e : Nat)
    (fl rest : List Char)
    (h1 : contentTruthy ch.content = false)
    (h2 : ch.startStringIndex = some s)
    (h3 : ch.endStringIndex = some e)
    (ht : t ≠ "")
    (hslice : jsSubstringL t.toList s e = fl ++ '\n' :: rest)
    (hnl : '\n' ∉ fl)
    (hempty : trimChars fl = []) :
    (materializeChapter (some t) ch).content = some (renderParagraphs rest) := by
  have hcond : (jsIncludesL (trimChars fl) (trimChars ch.title.toList)
      || jsIncludesL (trimChars ch.title.toList) (trimChars fl)) = true := by
    rw [hempty]
    have : jsIncludesL (trimChars ch.title.toList) [] = true := by
      simp [jsIncludesL, List.nil_infix]
    rw [this, Bool.or_true]
  rw [materializeChapter_lazy ch t s e h1 h2 h3 ht, hslice,
    dedupFirstLineL_strip ch.title.toList fl rest hnl hcond]

/-- Witness for C10: a synthesized leading chapter over a document that
starts with a blank line. -/
theorem c10_blank_first_line_dropped_witness :
    (materializeChapter (some "\nhello")
        { id := "chap-pre", title := "开始", index := 0,
          startStringIndex := some 0, endStringIndex := some 6 }).content =
      some "<p>hello</p>" := by
  have h := c10_blank_first_line_dropped
    { id := "chap-pre", title := "开始", index := 0,
      startStringIndex := some 0, endStringIndex := some 6 }
    "\nhello" 0 6 [] "hello".toList
    (by decide) rfl rfl (by decide) (by decide) (by decide) (by decide)
  exact h.trans (by decide)

/-! ### C4: validity filter on heading candidates -/

theorem filterPoints_skip (m : RawMatch) (ms : List RawMatch)
    (h : hasInvalidTitleChar (trimChars m.captured.toList) = true
         ∨ (trimChars m.captured.toList).length = 0
         ∨ 50 < (trimChars m.captured.toList).length) :
    filterPoints (m :: ms) = filterPoints ms := by
  simp only [filterPoints]
  by_cases hi : hasInvalidTitleChar (trimChars m.captured.toList) = true
  · rw [if_pos hi]
  · rw [if_neg hi]
    have hlen : ((decide (50 < (trimChars m.captured.toList).length)
        || ((trimChars m.captured.toList).length == 0)) = true) := by
      rcases h with h | h | h
      · exact absurd h hi
      · rw [h]; rfl
      · rw [decide_eq_true h]; rfl
    rw [if_pos hlen]

/-- C4: a regex hit whose trimmed title contains a character of the
punctuation filter — a class containing the full stop `。`, the commas
`,` and `，`, and the quotation marks `"`, `“`, `”` and the apostrophe —
or whose trimmed title length is 0 or exceeds 50, is never promoted to
a chapter point, wherever it sits among the hits; in particular the
line `第1章，真的吗？` yields no point, and as the only near-match the
result is the single whole-text fallback chapter. -/
theorem c4_punctuation_rejection (m : RawMatch) (pre post : List RawMatch)
    (h : hasInvalidTitleChar (trimChars m.captured.toList) = true
         ∨ (trimChars m.captured.toList).length = 0
         ∨ 50 < (trimChars m.captured.toList).length) :
    filterPoints (pre ++ m :: post) = filterPoints (pre ++ post)
    ∧ ('。' ∈ invalidTitleChars ∧ ',' ∈ invalidTitleChars ∧ '，' ∈ invalidTitleChars
       ∧ '"' ∈ invalidTitleChars ∧ '“' ∈ invalidTitleChars ∧ '”' ∈ invalidTitleChars
       ∧ Char.ofNat 39 ∈ invalidTitleChars)
    ∧ filterPoints [{ captured := "第1章，真的吗？", startIndex := 0 }] = []
    ∧ buildChapters 30 (filterPoints [{ captured := "第1章，真的吗？", startIndex := 0 }]) =
        [{ id := "chap-0", title := "全文", index := 0,
           startStringIndex := some 0, endStringIndex := some 30 }] := by
  refine ⟨?_, by decide, by decide, by decide⟩
  induction pre with
  | nil => exact filterPoints_skip m post h
  | cons a pre ih =>
    simp only [List.cons_append, filterPoints, List.append_eq]
    rw [ih]

/-- Witness for C4 at the scenario line surrounded by two valid hits. -/
theorem c4_punctuation_rejection_witness :
    filterPoints
        [{ captured := "第一章 好", startIndex := 0 },
         { captured := "第1章，真的吗？", startIndex := 12 },
         { captured := "Chapter 2", startIndex := 40 }] =
      filterPoints
        [{ captured := "第一章 好", startIndex := 0 },
         { captured := "Chapter 2", startIndex := 40 }]
    ∧ ('。' ∈ invalidTitleChars ∧ ',' ∈ invalidTitleChars ∧ '，' ∈ invalidTitleChars
       ∧ '"' ∈ invalidTitleChars ∧ '“' ∈ invalidTitleChars ∧ '”' ∈ invalidTitleChars
       ∧ Char.ofNat 39 ∈ invalidTitleChars)
    ∧ filterPoints [{ captured := "第1章，真的吗？", startIndex := 0 }] = []
    ∧ buildChapters 30 (filterPoints [{ captured := "第1章，真的吗？", startIndex := 0 }]) =
        [{ id := "chap-0", title := "全文", index := 0,
           startStringIndex := some 0, endStringIndex := some 30 }] :=
  c4_punctuation_rejection { captured := "第1章，真的吗？", startIndex := 12 }
    [{ captured := "第一章 好", startIndex := 0 }]
    [{ captured := "Chapter 2", startIndex := 40 }]
    (Or.inl (by decide))

end ZenReader
